import Mathlib

/-!
Verification of the spreadsheet ingestion/normalization and per-customer
document rendering core (`src/data_processor.py`, `src/pdf_generator.py`).

Cells of a spreadsheet are modelled as `Option Val`: `none` is a missing
value (pandas `NaN`), `Val.str`/`Val.int` are the cell payloads the pipeline
distinguishes (Python `str` vs the integers written into `Quantidade`).
A pandas `DataFrame` is modelled as a list of column names plus a list of
rows; ragged rows are read with a `none` default, matching pandas padding.
-/

namespace Taiwan

/-- A non-missing spreadsheet value: text or an integer. -/
inductive Val where
  | str (s : String)
  | int (n : Int)
deriving DecidableEq

/-- A cell: `none` models pandas `NaN` (missing). -/
abbrev Cell := Option Val

/-- Python `str(v)` on a non-missing value. -/
def pyStr : Val → String
  | .str s => s
  | .int n => toString n

/-- Python `str(v)` on a cell; `str` of pandas `NaN` is the text `"nan"`. -/
def cellDisp : Cell → String
  | none => "nan"
  | some v => pyStr v

/-- Whitespace stripped from both ends of a character list
(Python `str.strip`). -/
def stripChars (l : List Char) : List Char :=
  ((l.dropWhile Char.isWhitespace).reverse.dropWhile Char.isWhitespace).reverse

/-- Python `str.strip()`. -/
def pyStrip (s : String) : String := String.mk (stripChars s.data)

/-- Python `str.lower()`. -/
def pyLower (s : String) : String := String.mk (s.data.map Char.toLower)

/-- Prefix test on character lists; models Python `str.startswith`
(used for the `Unnamed` column-name test of line 47). -/
def isPrefixChars : List Char → List Char → Bool
  | [], _ => true
  | _ :: _, [] => false
  | a :: as, b :: bs => a == b && isPrefixChars as bs

/-- Model of `col.startswith("Unnamed")` / the regex `^Unnamed` of line 47. -/
def startsWithUnnamed (s : String) : Bool :=
  isPrefixChars "Unnamed".data s.data

/-- A pandas DataFrame: ordered column names and rows of cells. -/
structure DF where
  cols : List String
  rows : List (List Cell)
deriving DecidableEq

/-- Index of the first occurrence of a name in a column list. -/
def idxOf? (n : String) : List String → Option Nat
  | [] => none
  | c :: cs => if c = n then some 0 else (idxOf? n cs).map (fun i => i + 1)

/-- The cell of row `r` in the column named `n` (a missing column reads as
`NaN`, which is how `reindex` materializes absent columns). -/
def lookupCell (cols : List String) (r : List Cell) (n : String) : Cell :=
  match idxOf? n cols with
  | some j => r.getD j none
  | none => none

/-- The cells of the column named `n`, in row order. -/
def getColCells (df : DF) (n : String) : List Cell :=
  df.rows.map (fun r => lookupCell df.cols r n)

/-- Column selection / reindexing: `df[names]` when every name is present
(line 55), and `df.reindex(columns=names)` in general (line 69) — a name
absent from `df` yields an all-missing column. -/
def projectCols (df : DF) (names : List String) : DF :=
  { cols := names
    rows := df.rows.map (fun r => names.map (fun n => lookupCell df.cols r n)) }

/-- Column names produced by `pd.read_excel(..., header=k)` when the header
row holds only text or blank cells: a blank header cell at position `j`
becomes the synthetic name `Unnamed: j`.  These names are only consulted on
that all-text shape (see `headerAllText`): a non-text label makes line 47
raise before any name is used, which `processar_arquivo` models as its
parse-error branch. -/
def headerNames (j : Nat) : List Cell → List String
  | [] => []
  | c :: cs =>
    (match c with
     | none => "Unnamed: " ++ toString j
     | some v => pyStr v) :: headerNames (j + 1) cs

/-- Model of `pd.read_excel(arquivo, header=hr)` (line 44): row `hr`
supplies the column names, the rows below it are the data. -/
def readWithHeader (raw : List (List Cell)) (hr : Nat) : DF :=
  { cols := headerNames 0 (raw.getD hr []), rows := raw.drop (hr + 1) }

/-- Line 47: drop every column whose name starts with `Unnamed`. -/
def dropUnnamed (df : DF) : DF :=
  let keep := df.cols.enum.filter (fun p => !(startsWithUnnamed p.snd))
  { cols := keep.map Prod.snd
    rows := df.rows.map (fun r => keep.map (fun p => r.getD p.fst none)) }

/-- Line 50: strip every column name. -/
def stripColNames (df : DF) : DF :=
  { df with cols := df.cols.map pyStrip }

/-- The `colunas_esperadas` list of `DataProcessor.__init__`. -/
def colunasEsperadas : List String :=
  ["Item", "Chassi", "Modelo", "Cliente", "Cidade",
   "Status Funcionamento", "Manutenção", "Quantidade"]

/-- Lines 53–54: the expected columns actually present, in expected order. -/
def colunasPresentes (df : DF) : List String :=
  colunasEsperadas.filter (fun c => df.cols.contains c)

/-- Line 58: `dropna(how=all)` — drop rows whose kept cells are all missing. -/
def dropAllNaRows (df : DF) : DF :=
  { df with rows := df.rows.filter (fun r => r.any (fun c => c.isSome)) }

/-- Lines 61–63: cast every column except `Quantidade` to `str`. -/
def astypeStrExceptQuant (df : DF) : DF :=
  { df with
    rows := df.rows.map (fun r =>
      (df.cols.zip r).map (fun p =>
        if p.fst = "Quantidade" then p.snd else some (Val.str (cellDisp p.snd)))) }

/-- Column assignment `df[n] = vals`: overwrite the column if present,
else append it on the right. -/
def setCol (df : DF) (n : String) (vals : List Cell) : DF :=
  match idxOf? n df.cols with
  | some j =>
    { df with rows := (df.rows.zip vals).map (fun p => p.fst.set j p.snd) }
  | none =>
    { cols := df.cols ++ [n]
      rows := (df.rows.zip vals).map (fun p => p.fst ++ [p.snd]) }

/-- The derived sequence `range(1, n+1)` as cells. -/
def seqCells (n : Nat) : List Cell :=
  (List.range n).map (fun i => some (Val.int (Int.ofNat i + 1)))

/-- Lines 66 / 107: `df["Quantidade"] = range(1, len(df) + 1)`. -/
def setQuantidade (df : DF) : DF :=
  setCol df "Quantidade" (seqCells df.rows.length)

/-- Model of `DataProcessor.validar_colunas` (lines 15–23). -/
def validar_colunas (df : DF) : Bool × String :=
  let atuais := df.cols.filter (fun c => !(startsWithUnnamed c))
  let faltantes := colunasEsperadas.filter (fun c => !(atuais.contains c))
  if faltantes.isEmpty then (true, "Todas as colunas estão presentes")
  else (false, "Colunas faltantes: " ++ String.intercalate ", " faltantes)

/-- Lines 34–36: a non-missing cell whose text, lowercased then stripped,
is the exact string `item`. -/
def cellMatchesItem (c : Cell) : Bool :=
  match c with
  | none => false
  | some v => pyStrip (pyLower (pyStr v)) == "item"

/-- Does a row contain a header-marker cell? (the `item in row_values`
membership test of line 36, which is exact equality, not containment). -/
def rowHasHeaderItem (row : List Cell) : Bool := row.any cellMatchesItem

/-- The `for idx, row in df_temp.iterrows()` loop of lines 32–38. -/
def findHeaderAux (i : Nat) : List (List Cell) → Option Nat
  | [] => none
  | r :: rs => if rowHasHeaderItem r then some i else findHeaderAux (i + 1) rs

/-- Index of the header row, if any. -/
def findHeaderRow (raw : List (List Cell)) : Option Nat := findHeaderAux 0 raw

/-- Result of `processar_arquivo`: the stored `self.df`, the success flag
and the message.  `df` is `none` when the method returned before assigning
`self.df` (header not found) and on the parse-error branch, where the
frame assigned at line 44 still carries raw non-string labels that no
claim consults. -/
structure ProcResult where
  df : Option DF
  ok : Bool
  msg : String
deriving DecidableEq

/-- Lines 44–50: re-read with the located header, drop `Unnamed` columns,
strip column names. -/
def normalizado (raw : List (List Cell)) (hr : Nat) : DF :=
  stripColNames (dropUnnamed (readWithHeader raw hr))

/-- Line 55: keep only the expected columns that are present. -/
def loadPresentes (raw : List (List Cell)) (hr : Nat) : DF :=
  projectCols (normalizado raw hr) (colunasPresentes (normalizado raw hr))

/-- Line 58: after dropping the all-blank rows. -/
def loadClean (raw : List (List Cell)) (hr : Nat) : DF :=
  dropAllNaRows (loadPresentes raw hr)

/-- Lines 61–63: after casting the non-`Quantidade` columns to `str`. -/
def loadStr (raw : List (List Cell)) (hr : Nat) : DF :=
  astypeStrExceptQuant (loadClean raw hr)

/-- Line 66: after writing the fresh `Quantidade` sequence. -/
def loadNum (raw : List (List Cell)) (hr : Nat) : DF :=
  setQuantidade (loadStr raw hr)

/-- Line 69: after reindexing to the canonical eight columns. -/
def loadFinal (raw : List (List Cell)) (hr : Nat) : DF :=
  projectCols (loadNum raw hr) colunasEsperadas

/-- Is every cell of the chosen header row text or blank?  pandas keeps a
non-string header cell (a number, a date) as a non-string column label, on
which line 47's `.columns.str.contains` produces a missing entry and the
`~` negation raises; the exception is caught at lines 76–79 and surfaced
as the parse-error message. -/
def headerAllText (row : List Cell) : Bool :=
  row.all (fun c =>
    match c with
    | none => true
    | some (Val.str _) => true
    | some (Val.int _) => false)

/-- Model of `DataProcessor.processar_arquivo` (lines 25–79) on the cell
grid read from the workbook (`pd.read_excel(arquivo, header=None)`).  The
exception text interpolated at line 79 is a runtime artifact; the model
uses a fixed stand-in after the `Erro ao processar arquivo: ` prefix. -/
def processar_arquivo (raw : List (List Cell)) : ProcResult :=
  match findHeaderRow raw with
  | none =>
    { df := none, ok := false
      msg := "Não foi possível encontrar a linha de cabeçalho com \x27Item\x27" }
  | some hr =>
    if headerAllText (raw.getD hr []) then
      match validar_colunas (loadFinal raw hr) with
      | (true, _) =>
        { df := some (loadFinal raw hr), ok := true
          msg := "Arquivo processado com sucesso!" }
      | (false, m) =>
        { df := some (loadFinal raw hr), ok := false
          msg := "Erro na validação das colunas: " ++ m }
    else
      { df := none, ok := false
        msg := "Erro ao processar arquivo: bad operand type for unary ~" }

/-- A filter specification: field names with selected value lists
(Python dict iteration order = insertion order). -/
abbrev Filtros := List (String × List String)

/-- Membership test `df_filtrado[coluna].isin(valores_filtro)` on one cell:
pandas `isin` compares values exactly, so an integer or missing cell never
matches a string filter value. -/
def cellIsInStrs (c : Cell) (vs : List String) : Bool :=
  match c with
  | some (Val.str s) => vs.contains s
  | _ => false

/-- The filter loop of lines 99–104; `none` models the `KeyError` raised
when a spec names a column the DataFrame does not have. -/
def applyFiltros : DF → Filtros → Option DF
  | df, [] => some df
  | df, (c, vs) :: fs =>
    if vs.isEmpty then applyFiltros df fs
    else
      match idxOf? c df.cols with
      | none => none
      | some j =>
        applyFiltros
          { df with rows := df.rows.filter (fun r => cellIsInStrs (r.getD j none) vs) }
          fs

/-- Model of `DataProcessor.filtrar_dados` (lines 95–112).  With no loaded
table, `self.df.copy()` raises `AttributeError` both in the `try` body and
again inside the `except` handler, so the call errors.  A `KeyError` in the
filter loop is caught and the handler returns `self.df.copy()` unchanged. -/
def filtrar_dados (df? : Option DF) (filtros : Filtros) : Except String DF :=
  match df? with
  | none => Except.error "\x27NoneType\x27 object has no attribute \x27copy\x27"
  | some df =>
    match applyFiltros df filtros with
    | some dff => Except.ok (setQuantidade dff)
    | none => Except.ok df

/-- Model of `Series.unique` on cells: first occurrences, in order (pandas
collapses all missing values into one entry). -/
def uniqueAux (seen : List Cell) : List Cell → List Cell
  | [] => []
  | c :: l => if c ∈ seen then uniqueAux seen l else c :: uniqueAux (c :: seen) l

/-- First-occurrence deduplication of a cell list. -/
def uniqueCells (l : List Cell) : List Cell := uniqueAux [] l

/-- First-occurrence deduplication of a string list (used to describe the
unique customers of a table whose `Cliente` cells are all text). -/
def uniqueStrAux (seen : List String) : List String → List String
  | [] => []
  | c :: l =>
    if c ∈ seen then uniqueStrAux seen l else c :: uniqueStrAux (c :: seen) l

/-- First-occurrence deduplication of a string list. -/
def uniqueStr (l : List String) : List String := uniqueStrAux [] l

/-- Lexicographic comparison of character lists by code point, the order
Python uses to compare strings (executable; `List.lt` and the stock String
order are Props whose decision procedures do not reduce in the kernel). -/
def charListLe : List Char → List Char → Bool
  | [], _ => true
  | _ :: _, [] => false
  | a :: as, b :: bs => if a = b then charListLe as bs else decide (a < b)

/-- Python string comparison `a <= b` (code-point lexicographic). -/
def pyLe (a b : String) : Bool := charListLe a.data b.data

/-- Model of `DataProcessor.get_valores_unicos` (lines 81–93): `unique`,
then keep the non-missing values whose stripped text is non-blank, as
stripped text, sorted (Python `sorted`, modelled by insertion sort under
the lexicographic string order). -/
def get_valores_unicos (df? : Option DF) (coluna : String) : List String :=
  match df? with
  | none => []
  | some df =>
    match idxOf? coluna df.cols with
    | none => []
    | some j =>
      let valores := uniqueCells (df.rows.map (fun r => r.getD j none))
      let valores := valores.filterMap (fun c =>
        match c with
        | none => none
        | some v =>
          let s := pyStrip (pyStr v)
          if s = "" then none else some s)
      List.insertionSort (fun a b => pyLe a b = true) valores

/-- The rendered document of `criar_pdf_por_cliente`: its path, title,
header row and formatted body rows. -/
structure PdfDoc where
  filename : String
  titulo : String
  header : List String
  body : List (List String)
deriving DecidableEq

/-- A character kept by the safe-filename filter of lines 45–46:
`c.isalnum() or c in (" ", "-", "_")`.  Python's `isalnum` consults the
runtime's Unicode tables (it keeps accented letters such as `é`); the
rendering model takes that classifier as the parameter `isalnum` instead
of re-implementing the tables. -/
def isSafeChar (isalnum : Char → Bool) (c : Char) : Bool :=
  isalnum c || c == ' ' || c == '-' || c == '_'

/-- The safe file name of lines 45–46: keep the characters `isalnum`
accepts plus spaces, hyphens and underscores, then strip. -/
def nome_arquivo (isalnum : Char → Bool) (cliente : String) : String :=
  pyStrip (String.mk (cliente.data.filter (isSafeChar isalnum)))

/-- Python `str.isalnum` decided exactly on the ASCII and Latin-1 range:
ASCII letters and digits, the Latin-1 letters `À`–`ÿ` without the two
operators `×` and `÷`, the letters `ª`, `µ`, `º` and the numeric
characters `¹`, `²`, `³`.  Used to instantiate the `isalnum` parameter on
concrete inputs. -/
def latin1Alnum (c : Char) : Bool :=
  c.isAlphanum ||
  (0xC0 ≤ c.toNat && c.toNat ≤ 0xFF && c.toNat != 0xD7 && c.toNat != 0xF7) ||
  c.toNat == 0xAA || c.toNat == 0xB5 || c.toNat == 0xBA ||
  c.toNat == 0xB2 || c.toNat == 0xB3 || c.toNat == 0xB9

/-- Model of `PDFGenerator.criar_pdf_por_cliente` (lines 40–134).  A `none`
result models the exceptions of the Python code: `KeyError` when the table
has no `Cliente` column, `TypeError` when the file-name loop iterates a
non-string customer value. -/
def criar_pdf_por_cliente (isalnum : Char → Bool) (outputDir : String)
    (df : DF) (cliente : Cell) : Option PdfDoc :=
  match idxOf? "Cliente" df.cols, cliente with
  | some j, some (Val.str s) =>
    let dadosCliente := df.rows.filter (fun r => r.getD j none == some (Val.str s))
    some
      { filename := outputDir ++ "/" ++ nome_arquivo isalnum s ++ ".pdf"
        titulo := "Relatório - " ++ s
        header := df.cols
        body := dadosCliente.map (fun r => r.map cellDisp) }
  | _, _ => none

/-- The loop body of `gerar_pdfs_todos_clientes`: render every customer in
order, aborting on the first failure. -/
def criar_todos (isalnum : Char → Bool) (outputDir : String) (df : DF) :
    List Cell → Option (List PdfDoc)
  | [] => some []
  | c :: cs =>
    match criar_pdf_por_cliente isalnum outputDir df c,
        criar_todos isalnum outputDir df cs with
    | some d, some ds => some (d :: ds)
    | _, _ => none

/-- Model of `PDFGenerator.gerar_pdfs_todos_clientes` (lines 136–142): one
document per entry of `df["Cliente"].unique()`, in order. -/
def gerar_pdfs_todos_clientes (isalnum : Char → Bool) (outputDir : String)
    (df : DF) : Option (List PdfDoc) :=
  match idxOf? "Cliente" df.cols with
  | none => none
  | some j =>
    criar_todos isalnum outputDir df
      (uniqueCells (df.rows.map (fun r => r.getD j none)))

/-- The mutable session state of the `DataProcessor` class: `self.df`. -/
structure DataProcessor where
  df : Option DF
deriving DecidableEq

/-- Method view of `filtrar_dados` on the session state: the body reads
`self.df`, works on `self.df.copy()` and contains no assignment to
`self.df`, so the state component of the result is the input state. -/
def DataProcessor.filtrar_method (p : DataProcessor) (filtros : Filtros) :
    DataProcessor × Except String DF :=
  (p, filtrar_dados p.df filtros)

/-- Every row of the DataFrame has exactly one cell per column
(pandas DataFrames are rectangular). -/
def DF.Rect (df : DF) : Prop := ∀ r ∈ df.rows, r.length = df.cols.length

/-- The conjunctive row predicate a filter specification denotes over a
fixed column list: every field with a non-empty value list must match. -/
def rowPass (cols : List String) (fs : Filtros) (r : List Cell) : Bool :=
  fs.all (fun p =>
    p.snd.isEmpty ||
      (match idxOf? p.fst cols with
       | some j => cellIsInStrs (r.getD j none) p.snd
       | none => false))

/-- The text payload of a cell, if it is a string cell. -/
def cellText? : Cell → Option String
  | some (Val.str s) => some s
  | _ => none

/-- The document `criar_pdf_por_cliente` renders for the customer named `s`
when `Cliente` is column `j`: used to state what `RenderAll` produces. -/
def docFor (isalnum : Char → Bool) (outputDir : String) (df : DF) (j : Nat)
    (s : String) : PdfDoc :=
  { filename := outputDir ++ "/" ++ nome_arquivo isalnum s ++ ".pdf"
    titulo := "Relatório - " ++ s
    header := df.cols
    body := (df.rows.filter (fun r => r.getD j none == some (Val.str s))).map
      (fun r => r.map cellDisp) }

/-- A concrete workbook grid: junk row, header row, three data rows, one
all-blank row. -/
def exRawMain : List (List Cell) :=
  [[some (.str "items"), none],
   [some (.str "Item"), some (.str "Cliente"), some (.str "Cidade")],
   [some (.str "001"), some (.str "Acme"), some (.str "Taipei")],
   [none, none, none],
   [some (.str "002"), some (.str "Acme"), some (.str "Kaohsiung")],
   [some (.str "003"), some (.str "Beta"), some (.str "Taipei")]]

/-- A concrete workbook whose only data cell carries surrounding
whitespace. -/
def exRawTrim : List (List Cell) :=
  [[some (.str "Item")], [some (.str " x ")]]

/-- A concrete workbook with two `Cliente` values that differ only in
surrounding whitespace. -/
def exRawDup : List (List Cell) :=
  [[some (.str "Item"), some (.str "Cliente")],
   [some (.str "1"), some (.str " a")],
   [some (.str "2"), some (.str "a ")]]

/-- A concrete workbook with no `Cidade` column. -/
def exRawNoCidade : List (List Cell) :=
  [[some (.str "Item"), some (.str "Cliente")],
   [some (.str "1"), some (.str "Acme")]]

/-- A concrete table for the rendering witness. -/
def exDfRender : DF :=
  { cols := ["Cliente"]
    rows := [[some (.str "A")], [some (.str "B")], [some (.str "A")]] }

/-- A concrete one-row table with no `Acme` row. -/
def exDfNoAcme : DF :=
  { cols := ["Cliente"], rows := [[some (.str "X")]] }

/-- A concrete table with an accented customer name. -/
def exDfJose : DF :=
  { cols := ["Cliente"]
    rows := [[some (.str "José")], [some (.str "B")], [some (.str "José")]] }

/-- A concrete workbook whose header row contains a numeric cell, which
makes line 47 raise and the load surface the parse-error message. -/
def exRawNumHeader : List (List Cell) :=
  [[some (.str "Item"), some (.int 5)],
   [some (.str "1"), some (.str "x")]]

theorem idxOf?_lt {n : String} :
    ∀ {l : List String} {i : Nat}, idxOf? n l = some i → i < l.length := by
  intro l
  induction l with
  | nil => intro i h; simp [idxOf?] at h
  | cons c cs ih =>
    intro i h
    simp only [idxOf?] at h
    split at h
    · cases h; simp
    · cases h' : idxOf? n cs with
      | none => rw [h'] at h; simp at h
      | some i' =>
        rw [h'] at h
        simp only [Option.map_some'] at h
        cases h
        have := ih h'
        simp only [List.length_cons]
        omega

theorem idxOf?_getD {n : String} (d : String) :
    ∀ {l : List String} {i : Nat}, idxOf? n l = some i → l.getD i d = n := by
  intro l
  induction l with
  | nil => intro i h; simp [idxOf?] at h
  | cons c cs ih =>
    intro i h
    simp only [idxOf?] at h
    split at h
    · cases h; simpa using by assumption
    · cases h' : idxOf? n cs with
      | none => rw [h'] at h; simp at h
      | some i' =>
        rw [h'] at h
        simp only [Option.map_some'] at h
        cases h
        simpa using ih h'

theorem idxOf?_eq_none_iff {n : String} :
    ∀ {l : List String}, idxOf? n l = none ↔ n ∉ l := by
  intro l
  induction l with
  | nil => simp [idxOf?]
  | cons c cs ih =>
    simp only [idxOf?, List.mem_cons]
    constructor
    · intro h
      split at h
      · simp at h
      · rename_i hne
        rcases Option.map_eq_none'.mp h with h'
        intro hmem
        rcases hmem with h1 | h2
        · exact hne h1.symm
        · exact (ih.mp h') h2
    · intro h
      have h1 : ¬ c = n := fun e => h (Or.inl e.symm)
      rw [if_neg h1, ih.mpr (fun m => h (Or.inr m))]
      rfl

theorem exists_idxOf?_of_mem {n : String} {l : List String} (h : n ∈ l) :
    ∃ i, idxOf? n l = some i := by
  cases h' : idxOf? n l with
  | none => exact absurd h (idxOf?_eq_none_iff.mp h')
  | some i => exact ⟨i, rfl⟩

theorem mem_of_idxOf? {n : String} {l : List String} {i : Nat}
    (h : idxOf? n l = some i) : n ∈ l := by
  by_contra hn
  rw [idxOf?_eq_none_iff.mpr hn] at h
  exact Option.noConfusion h

theorem idxOf?_append_self {n : String} {l : List String}
    (h : idxOf? n l = none) : idxOf? n (l ++ [n]) = some l.length := by
  induction l with
  | nil => simp [idxOf?]
  | cons c cs ih =>
    simp only [List.cons_append, idxOf?] at h ⊢
    split at h
    · simp at h
    · rename_i hne
      rw [if_neg hne, List.append_eq, ih (Option.map_eq_none'.mp h)]
      rfl

theorem idxOf?_append_ne {n m : String} {l : List String}
    (h : idxOf? n l = none) (hne : n ≠ m) : idxOf? n (l ++ [m]) = none := by
  induction l with
  | nil =>
    simp only [List.nil_append, idxOf?]
    rw [if_neg (fun e => hne e.symm)]
    rfl
  | cons c cs ih =>
    simp only [List.cons_append, idxOf?] at h ⊢
    split at h
    · simp at h
    · rename_i hc
      rw [if_neg hc, List.append_eq, ih (Option.map_eq_none'.mp h)]
      rfl

theorem getD_map_of_lt {α β : Type} (f : α → β) (d : β) (da : α) :
    ∀ (l : List α) (i : Nat), i < l.length → (l.map f).getD i d = f (l.getD i da) := by
  intro l
  induction l with
  | nil => intro i h; simp at h
  | cons a l ih =>
    intro i h
    cases i with
    | zero => simp
    | succ i => simpa using ih i (by simpa using h)

theorem getD_set_self {α : Type} :
    ∀ (l : List α) (j : Nat) (v d : α), j < l.length → (l.set j v).getD j d = v := by
  intro l
  induction l with
  | nil => intro j v d h; simp at h
  | cons a l ih =>
    intro j v d h
    cases j with
    | zero => simp
    | succ j => simpa using ih j v d (by simpa using h)

theorem getD_set_ne {α : Type} :
    ∀ (l : List α) (i j : Nat) (v d : α), i ≠ j → (l.set j v).getD i d = l.getD i d := by
  intro l
  induction l with
  | nil => intro i j v d _; simp
  | cons a l ih =>
    intro i j v d hij
    cases j with
    | zero =>
      cases i with
      | zero => exact absurd rfl hij
      | succ i => simp
    | succ j =>
      cases i with
      | zero => simp
      | succ i => simpa using ih i j v d (fun e => hij (by rw [e]))

theorem getD_append_lt {α : Type} :
    ∀ (l l2 : List α) (i : Nat) (d : α), i < l.length →
      (l ++ l2).getD i d = l.getD i d := by
  intro l
  induction l with
  | nil => intro l2 i d h; simp at h
  | cons a l ih =>
    intro l2 i d h
    cases i with
    | zero => simp
    | succ i => simpa using ih l2 i d (by simpa using h)

theorem getD_append_len {α : Type} :
    ∀ (l : List α) (v d : α), (l ++ [v]).getD l.length d = v := by
  intro l
  induction l with
  | nil => intro v d; simp
  | cons a l ih => intro v d; simpa using ih v d

theorem getD_zip_map {α β γ : Type} (f : α × β → γ) (d : γ) (da : α) (db : β) :
    ∀ (l1 : List α) (l2 : List β) (i : Nat), i < l1.length → i < l2.length →
      ((l1.zip l2).map f).getD i d = f (l1.getD i da, l2.getD i db) := by
  intro l1
  induction l1 with
  | nil => intro l2 i h1 _; simp at h1
  | cons a l1 ih =>
    intro l2 i h1 h2
    cases l2 with
    | nil => simp at h2
    | cons b l2 =>
      cases i with
      | zero => simp
      | succ i =>
        simpa using ih l2 i (by simpa using h1) (by simpa using h2)

theorem lookupCell_eq_getD {n : String} {cols : List String} {j : Nat}
    (h : idxOf? n cols = some j) (r : List Cell) :
    lookupCell cols r n = r.getD j none := by
  simp [lookupCell, h]

theorem lookupCell_of_none {n : String} {cols : List String}
    (h : idxOf? n cols = none) (r : List Cell) :
    lookupCell cols r n = none := by
  simp [lookupCell, h]

theorem cols_projectCols (df : DF) (ns : List String) :
    (projectCols df ns).cols = ns := rfl

theorem rows_length_projectCols (df : DF) (ns : List String) :
    (projectCols df ns).rows.length = df.rows.length := by
  simp [projectCols]

theorem rect_projectCols (df : DF) (ns : List String) :
    (projectCols df ns).Rect := by
  intro r hr
  simp only [projectCols, List.mem_map] at hr
  rcases hr with ⟨r0, _, rfl⟩
  simp [projectCols]

theorem lookupCell_map_names {n : String} {ns : List String} (hn : n ∈ ns)
    (g : String → Cell) : lookupCell ns (ns.map g) n = g n := by
  rcases exists_idxOf?_of_mem hn with ⟨i, hi⟩
  rw [lookupCell_eq_getD hi, getD_map_of_lt g none "" ns i (idxOf?_lt hi),
    idxOf?_getD "" hi]

theorem getColCells_projectCols_mem {n : String} {ns : List String}
    (df : DF) (hn : n ∈ ns) :
    getColCells (projectCols df ns) n = getColCells df n := by
  simp only [getColCells, projectCols, List.map_map]
  apply List.map_congr_left
  intro r _
  exact lookupCell_map_names hn (fun m => lookupCell df.cols r m)

theorem getColCells_of_not_mem {n : String} {df : DF} (hn : n ∉ df.cols) :
    getColCells df n = List.replicate df.rows.length none := by
  simp only [getColCells, lookupCell_of_none (idxOf?_eq_none_iff.mpr hn)]
  exact List.map_const' df.rows none

theorem rect_dropAllNaRows {df : DF} (h : df.Rect) : (dropAllNaRows df).Rect := by
  intro r hr
  simp only [dropAllNaRows, List.mem_filter] at hr
  exact h r hr.1

theorem rect_astype {df : DF} (h : df.Rect) : (astypeStrExceptQuant df).Rect := by
  intro r hr
  simp only [astypeStrExceptQuant, List.mem_map] at hr
  rcases hr with ⟨r0, hr0, rfl⟩
  simp [astypeStrExceptQuant, List.length_zip, h r0 hr0]

theorem length_seqCells (n : Nat) : (seqCells n).length = n := by
  simp [seqCells]

theorem setCol_eq_some {df : DF} {n : String} {vals : List Cell} {j : Nat}
    (hj : idxOf? n df.cols = some j) :
    setCol df n vals =
      { df with rows := (df.rows.zip vals).map (fun p => p.fst.set j p.snd) } := by
  simp [setCol, hj]

theorem setCol_eq_none {df : DF} {n : String} {vals : List Cell}
    (hj : idxOf? n df.cols = none) :
    setCol df n vals =
      { cols := df.cols ++ [n]
        rows := (df.rows.zip vals).map (fun p => p.fst ++ [p.snd]) } := by
  simp [setCol, hj]

theorem rect_setCol {df : DF} {n : String} {vals : List Cell} (h : df.Rect) :
    (setCol df n vals).Rect := by
  intro r hr
  cases hj : idxOf? n df.cols with
  | some j =>
    rw [setCol_eq_some hj] at hr ⊢
    simp only [List.mem_map] at hr
    rcases hr with ⟨p, hp, rfl⟩
    simpa using h p.fst (List.mem_zip hp).1
  | none =>
    rw [setCol_eq_none hj] at hr ⊢
    simp only [List.mem_map] at hr
    rcases hr with ⟨p, hp, rfl⟩
    simp [h p.fst (List.mem_zip hp).1]

theorem rows_length_setCol {df : DF} {n : String} {vals : List Cell}
    (h : vals.length = df.rows.length) :
    (setCol df n vals).rows.length = df.rows.length := by
  cases hj : idxOf? n df.cols with
  | some j => rw [setCol_eq_some hj]; simp [List.length_zip, h]
  | none => rw [setCol_eq_none hj]; simp [List.length_zip, h]

theorem rows_length_setQuantidade (df : DF) :
    (setQuantidade df).rows.length = df.rows.length :=
  rows_length_setCol (length_seqCells _)

theorem cols_setCol_of_idx {df : DF} {n : String} {j : Nat} {vals : List Cell}
    (h : idxOf? n df.cols = some j) : (setCol df n vals).cols = df.cols := by
  rw [setCol_eq_some h]

theorem mem_cols_setCol (df : DF) (n : String) (vals : List Cell) :
    n ∈ (setCol df n vals).cols := by
  cases hj : idxOf? n df.cols with
  | some j => rw [cols_setCol_of_idx hj]; exact mem_of_idxOf? hj
  | none => rw [setCol_eq_none hj]; simp

theorem map_zip_eq_vals (f : List Cell → Cell → List Cell) (g : List Cell → Cell) :
    ∀ (rows : List (List Cell)) (vals : List Cell),
      rows.length = vals.length →
      (∀ r ∈ rows, ∀ v, g (f r v) = v) →
      ((rows.zip vals).map (fun p => f p.fst p.snd)).map g = vals := by
  intro rows
  induction rows with
  | nil =>
    intro vals h _
    cases vals with
    | nil => rfl
    | cons v vs => simp at h
  | cons r rs ih =>
    intro vals h hg
    cases vals with
    | nil => simp at h
    | cons v vs =>
      simp only [List.zip_cons_cons, List.map_cons]
      rw [hg r (by simp) v, ih vs (by simpa using h)
        (fun r' hr' => hg r' (by simp [hr']))]

theorem map_zip_eq_map (f : List Cell → Cell → List Cell) (g : List Cell → Cell) :
    ∀ (rows : List (List Cell)) (vals : List Cell),
      rows.length = vals.length →
      (∀ r ∈ rows, ∀ v, g (f r v) = g r) →
      ((rows.zip vals).map (fun p => f p.fst p.snd)).map g = rows.map g := by
  intro rows
  induction rows with
  | nil => intro vals _ _; simp
  | cons r rs ih =>
    intro vals h hg
    cases vals with
    | nil => simp at h
    | cons v vs =>
      simp only [List.zip_cons_cons, List.map_cons]
      rw [hg r (by simp) v, ih vs (by simpa using h)
        (fun r' hr' => hg r' (by simp [hr']))]

theorem idxOf?_append_some {n : String} {l l2 : List String} {i : Nat}
    (h : idxOf? n l = some i) : idxOf? n (l ++ l2) = some i := by
  induction l generalizing i with
  | nil => simp [idxOf?] at h
  | cons c cs ih =>
    simp only [List.cons_append, idxOf?] at h ⊢
    by_cases hc : c = n
    · rw [if_pos hc] at h ⊢
      exact h
    · rw [if_neg hc] at h ⊢
      cases h' : idxOf? n cs with
      | none => rw [h'] at h; simp at h
      | some i' =>
        rw [h'] at h
        simp only [Option.map_some'] at h
        rw [List.append_eq, ih h']
        simpa using h

theorem getColCells_setCol_self {df : DF} {n : String} {vals : List Cell}
    (hrect : df.Rect) (hlen : vals.length = df.rows.length) :
    getColCells (setCol df n vals) n = vals := by
  cases hj : idxOf? n df.cols with
  | some j =>
    rw [setCol_eq_some hj]
    simp only [getColCells]
    exact map_zip_eq_vals (fun r v => r.set j v)
      (fun r => lookupCell df.cols r n) df.rows vals hlen.symm
      (fun r hr v => by
        show lookupCell df.cols (r.set j v) n = v
        rw [lookupCell_eq_getD hj]
        exact getD_set_self r j v none ((hrect r hr).symm ▸ idxOf?_lt hj))
  | none =>
    rw [setCol_eq_none hj]
    simp only [getColCells]
    exact map_zip_eq_vals (fun r v => r ++ [v])
      (fun r => lookupCell (df.cols ++ [n]) r n) df.rows vals hlen.symm
      (fun r hr v => by
        show lookupCell (df.cols ++ [n]) (r ++ [v]) n = v
        rw [lookupCell_eq_getD (idxOf?_append_self hj)]
        have hlr : df.cols.length = r.length := (hrect r hr).symm
        rw [show (r ++ [v]).getD df.cols.length none
            = (r ++ [v]).getD r.length none by rw [hlr]]
        exact getD_append_len r v none)

theorem getColCells_setCol_ne {df : DF} {n m : String} {vals : List Cell}
    (hrect : df.Rect) (hlen : vals.length = df.rows.length) (hne : m ≠ n) :
    getColCells (setCol df n vals) m = getColCells df m := by
  cases hj : idxOf? n df.cols with
  | some j =>
    rw [setCol_eq_some hj]
    simp only [getColCells]
    exact map_zip_eq_map (fun r v => r.set j v)
      (fun r => lookupCell df.cols r m) df.rows vals hlen.symm
      (fun r hr v => by
        show lookupCell df.cols (r.set j v) m = lookupCell df.cols r m
        cases hi : idxOf? m df.cols with
        | none => rw [lookupCell_of_none hi, lookupCell_of_none hi]
        | some i =>
          rw [lookupCell_eq_getD hi, lookupCell_eq_getD hi]
          refine getD_set_ne r i j v none (fun e => hne ?_)
          rw [← idxOf?_getD "" hi, ← idxOf?_getD "" hj, e])
  | none =>
    rw [setCol_eq_none hj]
    simp only [getColCells]
    refine Eq.trans (map_zip_eq_map (fun r v => r ++ [v])
      (fun r => lookupCell (df.cols ++ [n]) r m) df.rows vals hlen.symm
      (fun r hr v => by
        show lookupCell (df.cols ++ [n]) (r ++ [v]) m
          = lookupCell (df.cols ++ [n]) r m
        cases hi : idxOf? m df.cols with
        | none =>
          rw [lookupCell_of_none (idxOf?_append_ne hi hne),
            lookupCell_of_none (idxOf?_append_ne hi hne)]
        | some i =>
          rw [lookupCell_eq_getD (idxOf?_append_some hi),
            lookupCell_eq_getD (idxOf?_append_some hi)]
          exact getD_append_lt r [v] i none ((hrect r hr).symm ▸ idxOf?_lt hi)))
      (List.map_congr_left (fun r hr => ?_))
    cases hi : idxOf? m df.cols with
    | none => rw [lookupCell_of_none (idxOf?_append_ne hi hne), lookupCell_of_none hi]
    | some i =>
      rw [lookupCell_eq_getD (idxOf?_append_some hi), lookupCell_eq_getD hi]

theorem getColCells_setQuantidade {df : DF} (hrect : df.Rect) :
    getColCells (setQuantidade df) "Quantidade" = seqCells df.rows.length :=
  getColCells_setCol_self hrect (length_seqCells _)

theorem getColCells_setQuantidade_ne {df : DF} {m : String} (hrect : df.Rect)
    (hne : m ≠ "Quantidade") :
    getColCells (setQuantidade df) m = getColCells df m :=
  getColCells_setCol_ne hrect (length_seqCells _) hne

theorem validar_esperadas (rows : List (List Cell)) :
    validar_colunas ⟨colunasEsperadas, rows⟩ =
      (true, "Todas as colunas estão presentes") := rfl

theorem processar_ok_of_header {raw : List (List Cell)} {hr : Nat}
    (h : findHeaderRow raw = some hr)
    (ht : headerAllText (raw.getD hr []) = true) :
    processar_arquivo raw =
      ⟨some (loadFinal raw hr), true, "Arquivo processado com sucesso!"⟩ := by
  simp only [processar_arquivo, h]
  rw [if_pos ht]
  rw [show validar_colunas (loadFinal raw hr) =
    (true, "Todas as colunas estão presentes") from
    validar_esperadas (loadFinal raw hr).rows]

theorem processar_parse_error {raw : List (List Cell)} {hr : Nat}
    (h : findHeaderRow raw = some hr)
    (ht : headerAllText (raw.getD hr []) = false) :
    processar_arquivo raw =
      ⟨none, false, "Erro ao processar arquivo: bad operand type for unary ~"⟩ := by
  simp only [processar_arquivo, h]
  rw [if_neg (by rw [ht]; exact Bool.false_ne_true)]

theorem processar_none_of_no_header {raw : List (List Cell)}
    (h : findHeaderRow raw = none) :
    processar_arquivo raw =
      ⟨none, false,
        "Não foi possível encontrar a linha de cabeçalho com \x27Item\x27"⟩ := by
  simp only [processar_arquivo, h]

theorem load_result {raw : List (List Cell)} {t0 : DF}
    (h : (processar_arquivo raw).df = some t0) :
    ∃ hr, findHeaderRow raw = some hr ∧
      headerAllText (raw.getD hr []) = true ∧ t0 = loadFinal raw hr := by
  cases hh : findHeaderRow raw with
  | none => rw [processar_none_of_no_header hh] at h; simp at h
  | some hr =>
    cases ht : headerAllText (raw.getD hr []) with
    | false => rw [processar_parse_error hh ht] at h; simp at h
    | true =>
      rw [processar_ok_of_header hh ht] at h
      simp only [Option.some.injEq] at h
      exact ⟨hr, rfl, ht, h.symm⟩

theorem loadClean_rect (raw : List (List Cell)) (hr : Nat) :
    (loadClean raw hr).Rect :=
  rect_dropAllNaRows (rect_projectCols _ _)

theorem loadStr_rect (raw : List (List Cell)) (hr : Nat) :
    (loadStr raw hr).Rect :=
  rect_astype (loadClean_rect raw hr)

theorem loadFinal_cols (raw : List (List Cell)) (hr : Nat) :
    (loadFinal raw hr).cols = colunasEsperadas := rfl

theorem loadFinal_rect (raw : List (List Cell)) (hr : Nat) :
    (loadFinal raw hr).Rect :=
  rect_projectCols _ _

theorem loadFinal_rows_length (raw : List (List Cell)) (hr : Nat) :
    (loadFinal raw hr).rows.length = (loadStr raw hr).rows.length := by
  rw [loadFinal, rows_length_projectCols, loadNum, rows_length_setQuantidade]

theorem quantidade_mem_esperadas : "Quantidade" ∈ colunasEsperadas := by
  simp [colunasEsperadas]

theorem loadFinal_quant (raw : List (List Cell)) (hr : Nat) :
    getColCells (loadFinal raw hr) "Quantidade" =
      seqCells (loadFinal raw hr).rows.length := by
  rw [loadFinal_rows_length raw hr, loadFinal,
    getColCells_projectCols_mem _ quantidade_mem_esperadas,
    loadNum, getColCells_setQuantidade (loadStr_rect raw hr)]

theorem applyFiltros_cons_empty {df : DF} {c : String} {vs : List String}
    {fs : Filtros} (he : vs.isEmpty = true) :
    applyFiltros df ((c, vs) :: fs) = applyFiltros df fs := by
  simp [applyFiltros, he]

theorem applyFiltros_cons_none {df : DF} {c : String} {vs : List String}
    {fs : Filtros} (he : vs.isEmpty = false) (hj : idxOf? c df.cols = none) :
    applyFiltros df ((c, vs) :: fs) = none := by
  simp [applyFiltros, he, hj]

theorem applyFiltros_cons_some {df : DF} {c : String} {vs : List String}
    {fs : Filtros} {j : Nat} (he : vs.isEmpty = false)
    (hj : idxOf? c df.cols = some j) :
    applyFiltros df ((c, vs) :: fs) =
      applyFiltros
        { df with rows := df.rows.filter (fun r => cellIsInStrs (r.getD j none) vs) }
        fs := by
  simp [applyFiltros, he, hj]

theorem applyFiltros_cols :
    ∀ (fs : Filtros) (df dff : DF), applyFiltros df fs = some dff →
      dff.cols = df.cols := by
  intro fs
  induction fs with
  | nil =>
    intro df dff h
    simp only [applyFiltros, Option.some.injEq] at h
    rw [← h]
  | cons p fs ih =>
    intro df dff h
    obtain ⟨c, vs⟩ := p
    rcases Bool.eq_false_or_eq_true vs.isEmpty with he | he
    · rw [applyFiltros_cons_empty he] at h
      exact ih df dff h
    · cases hj : idxOf? c df.cols with
      | none => rw [applyFiltros_cons_none he hj] at h; exact absurd h (by simp)
      | some j =>
        rw [applyFiltros_cons_some he hj] at h
        have hres := ih _ dff h
        exact hres

theorem applyFiltros_rows_sub :
    ∀ (fs : Filtros) (df dff : DF), applyFiltros df fs = some dff →
      ∀ r ∈ dff.rows, r ∈ df.rows := by
  intro fs
  induction fs with
  | nil =>
    intro df dff h r hr
    simp only [applyFiltros, Option.some.injEq] at h
    rw [← h] at hr
    exact hr
  | cons p fs ih =>
    intro df dff h r hr
    obtain ⟨c, vs⟩ := p
    rcases Bool.eq_false_or_eq_true vs.isEmpty with he | he
    · rw [applyFiltros_cons_empty he] at h
      exact ih df dff h r hr
    · cases hj : idxOf? c df.cols with
      | none => rw [applyFiltros_cons_none he hj] at h; exact absurd h (by simp)
      | some j =>
        rw [applyFiltros_cons_some he hj] at h
        have := ih _ dff h r hr
        simp only [List.mem_filter] at this
        exact this.1

theorem applyFiltros_mem_cols :
    ∀ (fs : Filtros) (df dff : DF), applyFiltros df fs = some dff →
      ∀ p ∈ fs, p.snd.isEmpty = false → p.fst ∈ df.cols := by
  intro fs
  induction fs with
  | nil => intro df dff _ p hp; simp at hp
  | cons q fs ih =>
    intro df dff h p hp hpe
    obtain ⟨c, vs⟩ := q
    rcases Bool.eq_false_or_eq_true vs.isEmpty with he | he
    · rw [applyFiltros_cons_empty he] at h
      rcases List.mem_cons.mp hp with rfl | hp'
      · rw [hpe] at he; exact absurd he (by simp)
      · exact ih df dff h p hp' hpe
    · cases hj : idxOf? c df.cols with
      | none => rw [applyFiltros_cons_none he hj] at h; exact absurd h (by simp)
      | some j =>
        rw [applyFiltros_cons_some he hj] at h
        rcases List.mem_cons.mp hp with rfl | hp'
        · exact mem_of_idxOf? hj
        · exact ih _ dff h p hp' hpe

theorem rowPass_nil (cols : List String) : rowPass cols [] = fun _ => true :=
  funext fun r => by simp [rowPass]

theorem applyFiltros_eq_filter :
    ∀ (fs : Filtros) (df : DF),
      (∀ p ∈ fs, p.snd.isEmpty = false → p.fst ∈ df.cols) →
      applyFiltros df fs =
        some ⟨df.cols, df.rows.filter (rowPass df.cols fs)⟩ := by
  intro fs
  induction fs with
  | nil =>
    intro df _
    simp only [applyFiltros, rowPass_nil, List.filter_true]
  | cons p fs ih =>
    intro df h
    obtain ⟨c, vs⟩ := p
    rcases Bool.eq_false_or_eq_true vs.isEmpty with he | he
    · rw [applyFiltros_cons_empty he,
        ih df (fun q hq => h q (List.mem_cons_of_mem _ hq))]
      have heq : df.rows.filter (rowPass df.cols fs) =
          df.rows.filter (rowPass df.cols ((c, vs) :: fs)) := by
        apply List.filter_congr
        intro r _
        simp [rowPass, List.all_cons, he]
      rw [heq]
    · have hc : c ∈ df.cols := h (c, vs) (List.mem_cons_self _ _) he
      obtain ⟨j, hj⟩ := exists_idxOf?_of_mem hc
      have hmid : applyFiltros
          { cols := df.cols
            rows := df.rows.filter (fun r => cellIsInStrs (r.getD j none) vs) } fs =
          some ⟨df.cols,
            (df.rows.filter (fun r => cellIsInStrs (r.getD j none) vs)).filter
              (rowPass df.cols fs)⟩ :=
        ih _ (fun q hq => h q (List.mem_cons_of_mem _ hq))
      rw [applyFiltros_cons_some he hj, hmid]
      have heq : (df.rows.filter
            (fun r => cellIsInStrs (r.getD j none) vs)).filter
              (rowPass df.cols fs) =
          df.rows.filter (rowPass df.cols ((c, vs) :: fs)) := by
        rw [List.filter_filter]
        apply List.filter_congr
        intro r _
        simp only [rowPass, List.all_cons, he, hj, Bool.false_or]
        rw [Bool.and_comm]
      rw [heq]

theorem filtrar_eq_of_cols (df : DF) (fs : Filtros)
    (h : ∀ p ∈ fs, p.snd.isEmpty = false → p.fst ∈ df.cols) :
    filtrar_dados (some df) fs =
      Except.ok (setQuantidade ⟨df.cols, df.rows.filter (rowPass df.cols fs)⟩) := by
  simp [filtrar_dados, applyFiltros_eq_filter fs df h]

theorem astype_cell_text {df : DF} (hrect : df.Rect) {n : String}
    (hn : n ≠ "Quantidade") :
    ∀ c ∈ getColCells (astypeStrExceptQuant df) n,
      c = none ∨ ∃ s, c = some (Val.str s) := by
  intro c hc
  simp only [getColCells, astypeStrExceptQuant, List.map_map, List.mem_map] at hc
  rcases hc with ⟨r, hr, rfl⟩
  cases hi : idxOf? n df.cols with
  | none => exact Or.inl (lookupCell_of_none hi _)
  | some i =>
    right
    show ∃ s, lookupCell df.cols
      ((df.cols.zip r).map (fun p => if p.fst = "Quantidade" then p.snd
        else some (Val.str (cellDisp p.snd)))) n = some (Val.str s)
    rw [lookupCell_eq_getD hi,
      getD_zip_map (fun p => if p.fst = "Quantidade" then p.snd
        else some (Val.str (cellDisp p.snd))) none "" none df.cols r i
        (idxOf?_lt hi) ((hrect r hr).symm ▸ idxOf?_lt hi)]
    simp only []
    rw [if_neg (by rw [idxOf?_getD "" hi]; exact hn)]
    exact ⟨_, rfl⟩

theorem filtrar_some_cases {df : DF} {fs : Filtros} {t : DF}
    (h : filtrar_dados (some df) fs = Except.ok t) :
    t = df ∨ ∃ dff, applyFiltros df fs = some dff ∧ t = setQuantidade dff := by
  simp only [filtrar_dados] at h
  split at h
  · rename_i dff ha
    simp only [Except.ok.injEq] at h
    exact Or.inr ⟨dff, ha, h.symm⟩
  · rename_i ha
    simp only [Except.ok.injEq] at h
    exact Or.inl h.symm

/-- C1: for every Table produced by a successful `Load`, and for every Table
returned by `Filter` on it, the `Quantidade` column is exactly the integer
sequence `1..N` in row order (`N` the number of rows of that table); any
`Quantidade` values of the source spreadsheet are overwritten, since the
column always ends up equal to the freshly computed sequence. -/
theorem C1_quantidade_sequence (raw : List (List Cell)) (t0 : DF)
    (hok : (processar_arquivo raw).ok = true)
    (hdf : (processar_arquivo raw).df = some t0) :
    getColCells t0 "Quantidade" = seqCells t0.rows.length ∧
    ∀ (fs : Filtros) (t : DF), filtrar_dados (some t0) fs = Except.ok t →
      getColCells t "Quantidade" = seqCells t.rows.length := by
  obtain ⟨hr, hh, ht, rfl⟩ := load_result hdf
  constructor
  · exact loadFinal_quant raw hr
  · intro fs t hf
    rcases filtrar_some_cases hf with rfl | ⟨dff, ha, rfl⟩
    · exact loadFinal_quant raw hr
    · have hrect : dff.Rect := by
        intro r hr2
        rw [applyFiltros_cols fs _ dff ha]
        have hmem := applyFiltros_rows_sub fs _ dff ha r hr2
        exact loadFinal_rect raw hr r hmem
      rw [getColCells_setQuantidade hrect, rows_length_setQuantidade]

/-- Witness for C1 at the concrete workbook `exRawMain`. -/
theorem C1_quantidade_sequence_witness :
    getColCells (loadFinal exRawMain 1) "Quantidade" =
      seqCells (loadFinal exRawMain 1).rows.length ∧
    ∀ (fs : Filtros) (t : DF),
      filtrar_dados (some (loadFinal exRawMain 1)) fs = Except.ok t →
      getColCells t "Quantidade" = seqCells t.rows.length :=
  C1_quantidade_sequence exRawMain (loadFinal exRawMain 1) (by rfl) (by rfl)

/-- C2: every Table produced by a successful `Load` has exactly the eight
canonical columns in canonical order, regardless of the source columns, and
`Filter` preserves this column list. -/
theorem C2_canonical_columns (raw : List (List Cell)) (t0 : DF)
    (hok : (processar_arquivo raw).ok = true)
    (hdf : (processar_arquivo raw).df = some t0) :
    t0.cols = colunasEsperadas ∧
    ∀ (fs : Filtros) (t : DF), filtrar_dados (some t0) fs = Except.ok t →
      t.cols = colunasEsperadas := by
  obtain ⟨hr, hh, ht, rfl⟩ := load_result hdf
  refine ⟨loadFinal_cols raw hr, ?_⟩
  intro fs t hf
  rcases filtrar_some_cases hf with rfl | ⟨dff, ha, rfl⟩
  · exact loadFinal_cols raw hr
  · have hcols : dff.cols = colunasEsperadas :=
      (applyFiltros_cols fs _ dff ha).trans (loadFinal_cols raw hr)
    have hqm : "Quantidade" ∈ dff.cols := hcols ▸ quantidade_mem_esperadas
    obtain ⟨j, hj⟩ := exists_idxOf?_of_mem hqm
    rw [setQuantidade, cols_setCol_of_idx hj, hcols]

/-- Witness for C2 at the concrete workbook `exRawMain`. -/
theorem C2_canonical_columns_witness :
    (loadFinal exRawMain 1).cols = colunasEsperadas ∧
    ∀ (fs : Filtros) (t : DF),
      filtrar_dados (some (loadFinal exRawMain 1)) fs = Except.ok t →
      t.cols = colunasEsperadas :=
  C2_canonical_columns exRawMain (loadFinal exRawMain 1) (by rfl) (by rfl)

/-- C10: the `Filter` method never mutates the stored session table: for
every session state and filter spec, the state after the call (success path
or internal-error fallback path alike, both of which only build a copy) is
the state before it, cell for cell. -/
theorem C10_filter_never_mutates_state (p : DataProcessor) (fs : Filtros) :
    (DataProcessor.filtrar_method p fs).fst = p ∧
    (DataProcessor.filtrar_method p fs).fst.df = p.df :=
  ⟨rfl, rfl⟩

theorem cellMatchesItem_iff {c : Cell} :
    cellMatchesItem c = true ↔
      ∃ v, c = some v ∧ pyStrip (pyLower (pyStr v)) = "item" := by
  cases c with
  | none => simp [cellMatchesItem]
  | some v => simp [cellMatchesItem]

theorem rowHasHeaderItem_iff {row : List Cell} :
    rowHasHeaderItem row = true ↔
      ∃ c ∈ row, ∃ v, c = some v ∧ pyStrip (pyLower (pyStr v)) = "item" := by
  simp [rowHasHeaderItem, List.any_eq_true, cellMatchesItem_iff]

theorem findHeaderAux_some_spec :
    ∀ (l : List (List Cell)) (i j : Nat), findHeaderAux i l = some j →
      i ≤ j ∧ j - i < l.length ∧ rowHasHeaderItem (l.getD (j - i) []) = true ∧
      ∀ k, k < j - i → rowHasHeaderItem (l.getD k []) = false := by
  intro l
  induction l with
  | nil => intro i j h; simp [findHeaderAux] at h
  | cons r rs ih =>
    intro i j h
    simp only [findHeaderAux] at h
    by_cases hm : rowHasHeaderItem r
    · rw [if_pos hm] at h
      cases h
      refine ⟨Nat.le_refl _, by simp [Nat.sub_self], ?_, ?_⟩
      · simpa [Nat.sub_self] using hm
      · intro k hk
        rw [Nat.sub_self] at hk
        exact absurd hk (Nat.not_lt_zero k)
    · rw [if_neg hm] at h
      obtain ⟨h1, h2, h3, h4⟩ := ih (i + 1) j h
      have hm0 : rowHasHeaderItem r = false := by
        rw [← Bool.not_eq_true]
        exact hm
      refine ⟨by omega, ?_, ?_, ?_⟩
      · simp only [List.length_cons]
        omega
      · have he : j - i = (j - (i + 1)) + 1 := by omega
        rw [he]
        simpa using h3
      · intro k hk
        cases k with
        | zero => simpa using hm0
        | succ k =>
          have hk2 : k < j - (i + 1) := by omega
          simpa using h4 k hk2

theorem findHeaderAux_none_spec :
    ∀ (l : List (List Cell)) (i : Nat), findHeaderAux i l = none →
      ∀ r ∈ l, rowHasHeaderItem r = false := by
  intro l
  induction l with
  | nil => intro i _ r hr; simp at hr
  | cons r0 rs ih =>
    intro i h r hr
    simp only [findHeaderAux] at h
    by_cases hm : rowHasHeaderItem r0
    · rw [if_pos hm] at h; exact Option.noConfusion h
    · rw [if_neg hm] at h
      rcases List.mem_cons.mp hr with rfl | hr'
      · rw [← Bool.not_eq_true]; exact hm
      · exact ih (i + 1) h r hr'

/-- C3: `Load` selects as header row the first row, scanning top to bottom,
containing a cell whose text, lowercased and trimmed, is exactly the string
`item` (a cell merely containing `item` as a substring does not match,
since only exact equality counts); if no row has such a cell, `Load` fails
and returns `(false, message)` with no stored Table. -/
theorem C3_header_row_selection (raw : List (List Cell)) :
    (∀ hr, findHeaderRow raw = some hr →
      hr < raw.length ∧
      (∃ c ∈ raw.getD hr [], ∃ v, c = some v ∧
        pyStrip (pyLower (pyStr v)) = "item") ∧
      (∀ k, k < hr → ¬ ∃ c ∈ raw.getD k [], ∃ v, c = some v ∧
        pyStrip (pyLower (pyStr v)) = "item")) ∧
    (findHeaderRow raw = none →
      (∀ row ∈ raw, ¬ ∃ c ∈ row, ∃ v, c = some v ∧
        pyStrip (pyLower (pyStr v)) = "item") ∧
      processar_arquivo raw = ⟨none, false,
        "Não foi possível encontrar a linha de cabeçalho com \x27Item\x27"⟩) := by
  constructor
  · intro hr h
    obtain ⟨h1, h2, h3, h4⟩ := findHeaderAux_some_spec raw 0 hr h
    rw [Nat.sub_zero] at h2 h3 h4
    refine ⟨h2, rowHasHeaderItem_iff.mp h3, ?_⟩
    intro k hk hex
    have hx := rowHasHeaderItem_iff.mpr hex
    rw [h4 k hk] at hx
    exact Bool.noConfusion hx
  · intro h
    refine ⟨?_, processar_none_of_no_header h⟩
    intro row hrow hex
    have hx := rowHasHeaderItem_iff.mpr hex
    rw [findHeaderAux_none_spec raw 0 h row hrow] at hx
    exact Bool.noConfusion hx

/-- Witness for C3 at the concrete workbook `exRawMain`, whose first row
contains `items` (a superstring of `item`, which correctly does not match)
and whose second row is the header. -/
theorem C3_header_row_selection_witness :
    1 < exRawMain.length ∧
    (∃ c ∈ exRawMain.getD 1 [], ∃ v, c = some v ∧
      pyStrip (pyLower (pyStr v)) = "item") ∧
    (∀ k, k < 1 → ¬ ∃ c ∈ exRawMain.getD k [], ∃ v, c = some v ∧
      pyStrip (pyLower (pyStr v)) = "item") :=
  (C3_header_row_selection exRawMain).1 1 (by rfl)

theorem setQuantidade_nil_rows (cs : List String) :
    (setQuantidade ⟨cs, []⟩).rows = [] := by
  cases hq : idxOf? "Quantidade" cs with
  | some j =>
    rw [setQuantidade, setCol_eq_some
      (show idxOf? "Quantidade" (DF.mk cs []).cols = some j from hq)]
    rfl
  | none =>
    rw [setQuantidade, setCol_eq_none
      (show idxOf? "Quantidade" (DF.mk cs []).cols = none from hq)]
    rfl

/-- Counterexample to C4: with no loaded table, `filtrar_dados` raises
(`AttributeError` on `None.copy()`, once in the `try` body and again in the
`except` handler) instead of returning an empty Table. -/
theorem C4_counterexample :
    filtrar_dados none [] =
      Except.error "\x27NoneType\x27 object has no attribute \x27copy\x27" := rfl

/-- C4 amended: `Filter` never fails when a table is loaded — every spec,
including specs whose value sets match no rows (which yield a Table with
zero rows), produces a Table — but when no table has been loaded the call
raises an error instead of returning an empty Table. -/
theorem C4_filter_totality_amended :
    (∀ (df : DF) (fs : Filtros), ∃ t, filtrar_dados (some df) fs = Except.ok t) ∧
    (∀ fs : Filtros, ∃ e, filtrar_dados none fs = Except.error e) ∧
    (∀ (df : DF) (c : String) (vs : List String) (j : Nat),
      vs.isEmpty = false → idxOf? c df.cols = some j →
      (∀ r ∈ df.rows, cellIsInStrs (r.getD j none) vs = false) →
      ∃ cols2, filtrar_dados (some df) [(c, vs)] = Except.ok ⟨cols2, []⟩) := by
  refine ⟨?_, ?_, ?_⟩
  · intro df fs
    cases ha : applyFiltros df fs with
    | none => exact ⟨df, by simp [filtrar_dados, ha]⟩
    | some dff => exact ⟨setQuantidade dff, by simp [filtrar_dados, ha]⟩
  · intro fs
    exact ⟨_, rfl⟩
  · intro df c vs j he hj hnone
    have h1 : applyFiltros df [(c, vs)] = some ⟨df.cols, []⟩ := by
      rw [applyFiltros_cons_some he hj]
      have hfil : df.rows.filter (fun r => cellIsInStrs (r.getD j none) vs) = [] :=
        List.filter_eq_nil_iff.mpr (fun r hr => by rw [hnone r hr]; exact
          Bool.noConfusion)
      rw [show ({ df with
          rows := df.rows.filter (fun r => cellIsInStrs (r.getD j none) vs) } : DF)
        = ⟨df.cols, []⟩ by rw [hfil]]
      rfl
    refine ⟨(setQuantidade ⟨df.cols, []⟩).cols, ?_⟩
    simp only [filtrar_dados, h1]
    refine congrArg Except.ok ?_
    calc setQuantidade ⟨df.cols, []⟩
        = ⟨(setQuantidade (⟨df.cols, []⟩ : DF)).cols,
           (setQuantidade (⟨df.cols, []⟩ : DF)).rows⟩ := rfl
      _ = ⟨(setQuantidade (⟨df.cols, []⟩ : DF)).cols, []⟩ := by
          rw [setQuantidade_nil_rows]

/-- Witness for C4 amended at concrete inputs: the one-row table
`exDfNoAcme` filtered by `Cliente = [Acme]` yields a Table with zero rows,
and the unloaded state errors. -/
theorem C4_filter_totality_amended_witness :
    (∃ t, filtrar_dados (some exDfNoAcme) [] = Except.ok t) ∧
    (∃ e, filtrar_dados none [] = Except.error e) ∧
    (∃ cols2, filtrar_dados (some exDfNoAcme) [("Cliente", ["Acme"])] =
      Except.ok ⟨cols2, []⟩) :=
  ⟨C4_filter_totality_amended.1 exDfNoAcme [],
   C4_filter_totality_amended.2.1 [],
   C4_filter_totality_amended.2.2 exDfNoAcme "Cliente" ["Acme"] 0 (by decide)
     (by decide) (by decide)⟩

/-- Counterexample to C5: loading `exRawTrim` succeeds and stores the
`Item` cell as the string `" x "`, which has leading and trailing
whitespace — `astype(str)` casts to text but does not trim. -/
theorem C5_counterexample :
    (processar_arquivo exRawTrim).ok = true ∧
    getColCells (((processar_arquivo exRawTrim).df).getD ⟨[], []⟩) "Item" =
      [some (Val.str " x ")] ∧
    pyStrip " x " ≠ " x " := by
  refine ⟨rfl, rfl, ?_⟩
  decide

/-- C5 amended: in every Table produced by a successful `Load`, every cell
of every non-`Quantidade` column is text (a string cell) or missing (for a
column absent from the source); the text is the `str` cast of the source
value with whitespace preserved, not trimmed. -/
theorem C5_cells_text_amended (raw : List (List Cell)) (t0 : DF)
    (hok : (processar_arquivo raw).ok = true)
    (hdf : (processar_arquivo raw).df = some t0) :
    ∀ n ∈ colunasEsperadas, n ≠ "Quantidade" →
      ∀ c ∈ getColCells t0 n, c = none ∨ ∃ s, c = some (Val.str s) := by
  obtain ⟨hr, hh, ht, rfl⟩ := load_result hdf
  intro n hn hnq c hc
  rw [loadFinal, getColCells_projectCols_mem _ hn, loadNum,
    getColCells_setQuantidade_ne (loadStr_rect raw hr) hnq] at hc
  exact astype_cell_text (loadClean_rect raw hr) hnq c hc

/-- Witness for C5 amended at the concrete workbook `exRawTrim` and the
concrete `Item` cell it stores. -/
theorem C5_cells_text_amended_witness :
    (some (Val.str " x ") : Cell) = none ∨
      ∃ s, (some (Val.str " x ") : Cell) = some (Val.str s) :=
  C5_cells_text_amended exRawTrim (loadFinal exRawTrim 0) (by rfl) (by rfl)
    "Item" (by simp [colunasEsperadas]) (by decide)
    (some (Val.str " x ")) (by decide)

/-- C6 counterexample: the workbook `exRawNoCidade` has a valid all-text
header row and is missing the `Quantidade` column, one of the eight
expected fields; the load succeeds, but the materialized `Quantidade`
column holds the derived value `1`, not a column of all-missing values as
the claim asserts for any one of the eight missing fields. -/
theorem C6_counterexample :
    (processar_arquivo exRawNoCidade).ok = true ∧
    (processar_arquivo exRawNoCidade).df = some (loadFinal exRawNoCidade 0) ∧
    "Quantidade" ∉ (normalizado exRawNoCidade 0).cols ∧
    getColCells (loadFinal exRawNoCidade 0) "Quantidade" = [some (Val.int 1)] ∧
    getColCells (loadFinal exRawNoCidade 0) "Quantidade" ≠
      List.replicate (loadFinal exRawNoCidade 0).rows.length none :=
  ⟨rfl, rfl, by decide, rfl, by decide⟩

/-- C6 (amended): a workbook with a valid header row whose header cells are
all text, missing any of the eight expected columns, still loads
successfully, returning `(true, message)`; each missing non-derived field
is materialized as a column of all-missing values, while a missing
`Quantidade` is materialized as the derived sequence `1..N` instead.  A
non-text cell in the chosen header row instead makes the load fail through
the `except` handler of lines 76–79, since line 47 raises on non-string
column labels. -/
theorem C6_missing_column_amended (raw : List (List Cell)) (hr : Nat)
    (hh : findHeaderRow raw = some hr) :
    (headerAllText (raw.getD hr []) = true →
      (processar_arquivo raw).ok = true ∧
      (processar_arquivo raw).df = some (loadFinal raw hr) ∧
      (∀ n ∈ colunasEsperadas, n ≠ "Quantidade" →
        n ∉ (normalizado raw hr).cols →
        getColCells (loadFinal raw hr) n =
          List.replicate (loadFinal raw hr).rows.length none) ∧
      ("Quantidade" ∉ (normalizado raw hr).cols →
        getColCells (loadFinal raw hr) "Quantidade" =
          seqCells (loadFinal raw hr).rows.length)) ∧
    (headerAllText (raw.getD hr []) = false →
      (processar_arquivo raw).ok = false ∧
      (processar_arquivo raw).df = none) := by
  constructor
  · intro ht
    rw [processar_ok_of_header hh ht]
    refine ⟨rfl, rfl, ?_, fun _ => loadFinal_quant raw hr⟩
    intro n hn hnq hmiss
    have h2 : n ∉ (loadStr raw hr).cols := by
      show n ∉ colunasPresentes (normalizado raw hr)
      intro hmem
      simp only [colunasPresentes, List.mem_filter] at hmem
      exact hmiss (List.elem_iff.mp hmem.2)
    have h3 : n ∉ (loadNum raw hr).cols := by
      rw [loadNum]
      cases hq : idxOf? "Quantidade" (loadStr raw hr).cols with
      | some j => rw [setQuantidade, cols_setCol_of_idx hq]; exact h2
      | none =>
        rw [setQuantidade, setCol_eq_none hq]
        intro hmem
        rcases List.mem_append.mp hmem with hx | hx
        · exact h2 hx
        · rw [List.mem_singleton] at hx
          exact hnq hx
    rw [loadFinal, rows_length_projectCols, getColCells_projectCols_mem _ hn,
      getColCells_of_not_mem h3]
  · intro ht
    rw [processar_parse_error hh ht]
    exact ⟨rfl, rfl⟩

/-- Witness for C6 (amended) at the concrete workbooks `exRawNoCidade`
(missing `Cidade` and `Quantidade`, all-text header) and `exRawNumHeader`
(numeric header cell). -/
theorem C6_missing_column_amended_witness :
    headerAllText (exRawNoCidade.getD 0 []) = true ∧
    (processar_arquivo exRawNoCidade).ok = true ∧
    getColCells (loadFinal exRawNoCidade 0) "Cidade" =
      List.replicate (loadFinal exRawNoCidade 0).rows.length none ∧
    getColCells (loadFinal exRawNoCidade 0) "Quantidade" =
      seqCells (loadFinal exRawNoCidade 0).rows.length ∧
    headerAllText (exRawNumHeader.getD 0 []) = false ∧
    (processar_arquivo exRawNumHeader).ok = false := by
  obtain ⟨hsucc, _⟩ := C6_missing_column_amended exRawNoCidade 0 (by rfl)
  obtain ⟨a, _, c, d⟩ := hsucc (by rfl)
  obtain ⟨_, hfail⟩ := C6_missing_column_amended exRawNumHeader 0 (by rfl)
  exact ⟨by rfl, a,
    c "Cidade" (by simp [colunasEsperadas]) (by decide) (by decide),
    d (by decide), by rfl, (hfail (by rfl)).1⟩

theorem uniqueStrAux_mem :
    ∀ (l seen : List String) (a : String),
      a ∈ uniqueStrAux seen l ↔ a ∈ l ∧ a ∉ seen := by
  intro l
  induction l with
  | nil => intro seen a; simp [uniqueStrAux]
  | cons c l ih =>
    intro seen a
    simp only [uniqueStrAux]
    by_cases hc : c ∈ seen
    · rw [if_pos hc, ih]
      constructor
      · rintro ⟨h1, h2⟩
        exact ⟨List.mem_cons_of_mem _ h1, h2⟩
      · rintro ⟨h1, h2⟩
        rcases List.mem_cons.mp h1 with rfl | h1'
        · exact absurd hc h2
        · exact ⟨h1', h2⟩
    · rw [if_neg hc]
      constructor
      · intro h
        rcases List.mem_cons.mp h with rfl | h'
        · exact ⟨List.mem_cons_self _ _, hc⟩
        · obtain ⟨h1, h2⟩ := (ih (c :: seen) a).mp h'
          exact ⟨List.mem_cons_of_mem _ h1,
            fun hs => h2 (List.mem_cons_of_mem _ hs)⟩
      · rintro ⟨h1, h2⟩
        by_cases hac : a = c
        · exact hac ▸ List.mem_cons_self _ _
        · apply List.mem_cons_of_mem
          apply (ih (c :: seen) a).mpr
          refine ⟨?_, ?_⟩
          · rcases List.mem_cons.mp h1 with rfl | h1'
            · exact absurd rfl hac
            · exact h1'
          · intro hs
            rcases List.mem_cons.mp hs with rfl | hs'
            · exact hac rfl
            · exact h2 hs'

theorem uniqueStrAux_nodup :
    ∀ (l seen : List String), (uniqueStrAux seen l).Nodup := by
  intro l
  induction l with
  | nil => intro seen; simp [uniqueStrAux]
  | cons c l ih =>
    intro seen
    simp only [uniqueStrAux]
    by_cases hc : c ∈ seen
    · rw [if_pos hc]; exact ih seen
    · rw [if_neg hc, List.nodup_cons]
      refine ⟨?_, ih (c :: seen)⟩
      intro hmem
      exact ((uniqueStrAux_mem l (c :: seen) c).mp hmem).2 (List.mem_cons_self _ _)

theorem uniqueStrAux_sublist :
    ∀ (l seen : List String), (uniqueStrAux seen l).Sublist l := by
  intro l
  induction l with
  | nil => intro seen; simp [uniqueStrAux]
  | cons c l ih =>
    intro seen
    simp only [uniqueStrAux]
    by_cases hc : c ∈ seen
    · rw [if_pos hc]
      exact (ih seen).trans (List.sublist_cons_self c l)
    · rw [if_neg hc]
      exact (ih (c :: seen)).cons₂ c

theorem uniqueAux_map_str :
    ∀ (l seen : List String),
      uniqueAux (seen.map (fun s => some (Val.str s)))
          (l.map (fun s => some (Val.str s))) =
        (uniqueStrAux seen l).map (fun s => some (Val.str s)) := by
  intro l
  induction l with
  | nil => intro seen; simp [uniqueAux, uniqueStrAux]
  | cons c l ih =>
    intro seen
    simp only [List.map_cons, uniqueAux, uniqueStrAux]
    have hmem : (some (Val.str c) ∈ seen.map (fun s => some (Val.str s))) ↔
        c ∈ seen := by
      simp [List.mem_map]
    by_cases hc : c ∈ seen
    · rw [if_pos (hmem.mpr hc), if_pos hc]
      exact ih seen
    · rw [if_neg (fun h => hc (hmem.mp h)), if_neg hc]
      simp only [List.map_cons]
      have hrec := ih (c :: seen)
      simp only [List.map_cons] at hrec
      rw [hrec]

theorem filterMap_cellText_map :
    ∀ (cl : List Cell), (∀ c ∈ cl, ∃ s, c = some (Val.str s)) →
      (cl.filterMap cellText?).map (fun s => some (Val.str s)) = cl := by
  intro cl
  induction cl with
  | nil => intro _; rfl
  | cons c cl ih =>
    intro h
    obtain ⟨s, rfl⟩ := h c (List.mem_cons_self _ _)
    rw [List.filterMap_cons_some (show cellText? (some (Val.str s)) = some s from rfl),
      List.map_cons, ih (fun c hc => h c (List.mem_cons_of_mem _ hc))]

theorem criar_pdf_str {isalnum : Char → Bool} {outputDir : String} {df : DF}
    {j : Nat} {s : String} (hj : idxOf? "Cliente" df.cols = some j) :
    criar_pdf_por_cliente isalnum outputDir df (some (Val.str s)) =
      some (docFor isalnum outputDir df j s) := by
  simp [criar_pdf_por_cliente, hj, docFor]

theorem criar_todos_map {isalnum : Char → Bool} {outputDir : String} {df : DF}
    {j : Nat} (hj : idxOf? "Cliente" df.cols = some j) :
    ∀ ss : List String,
      criar_todos isalnum outputDir df (ss.map (fun s => some (Val.str s))) =
        some (ss.map (docFor isalnum outputDir df j)) := by
  intro ss
  induction ss with
  | nil => rfl
  | cons s ss ih =>
    simp only [List.map_cons, criar_todos, criar_pdf_str hj, ih]

/-- C7: `RenderAll` on a table whose `Cliente` cells are all text produces
exactly one document per distinct `Cliente` value, in first-encountered
order (the distinct list is duplicate-free, has the same members as the
column, and is an order-preserving sublist of it); each document body holds
exactly the rows whose `Cliente` equals that value, formatted, in table
order; and each path is `outputDir/<safe name>.pdf` where the safe name
keeps only the characters Python isalnum accepts (letters and digits, by
the runtime Unicode tables the `isalnum` parameter stands for) plus
spaces, hyphens and underscores, trimmed; this holds for every such
classifier. -/
theorem C7_render_per_customer (isalnum : Char → Bool) (outputDir : String)
    (df : DF) (j : Nat)
    (hj : idxOf? "Cliente" df.cols = some j)
    (hall : ∀ c ∈ df.rows.map (fun r => r.getD j none), ∃ s, c = some (Val.str s)) :
    gerar_pdfs_todos_clientes isalnum outputDir df =
      some ((uniqueStr ((df.rows.map (fun r => r.getD j none)).filterMap cellText?)).map
        (fun s =>
          { filename := outputDir ++ "/" ++ nome_arquivo isalnum s ++ ".pdf"
            titulo := "Relatório - " ++ s
            header := df.cols
            body := (df.rows.filter
                (fun r => r.getD j none == some (Val.str s))).map
              (fun r => r.map cellDisp) })) ∧
    (uniqueStr ((df.rows.map (fun r => r.getD j none)).filterMap cellText?)).Nodup ∧
    (∀ v, v ∈ uniqueStr ((df.rows.map (fun r => r.getD j none)).filterMap cellText?) ↔
      v ∈ (df.rows.map (fun r => r.getD j none)).filterMap cellText?) ∧
    (uniqueStr ((df.rows.map (fun r => r.getD j none)).filterMap cellText?)).Sublist
      ((df.rows.map (fun r => r.getD j none)).filterMap cellText?) := by
  refine ⟨?_, uniqueStrAux_nodup _ [], ?_, uniqueStrAux_sublist _ []⟩
  · have hcl : df.rows.map (fun r => r.getD j none) =
        ((df.rows.map (fun r => r.getD j none)).filterMap cellText?).map
          (fun s => some (Val.str s)) :=
      (filterMap_cellText_map _ hall).symm
    simp only [gerar_pdfs_todos_clientes, hj]
    conv_lhs => rw [hcl]
    have huniq := uniqueAux_map_str
      ((df.rows.map (fun r => r.getD j none)).filterMap cellText?) []
    simp only [List.map_nil] at huniq
    rw [show uniqueCells
        ((((df.rows.map (fun r => r.getD j none)).filterMap cellText?)).map
          (fun s => some (Val.str s))) =
        (uniqueStr ((df.rows.map (fun r => r.getD j none)).filterMap cellText?)).map
          (fun s => some (Val.str s)) from huniq]
    rw [criar_todos_map hj]
    rfl
  · intro v
    rw [uniqueStr, uniqueStrAux_mem]
    simp

/-- Witness for C7 at the concrete table `exDfJose` (three rows, two
distinct customers, one accented), with the `isalnum` classifier
instantiated to `latin1Alnum`; the accented letter of `José` is kept in
the file name. -/
theorem C7_render_per_customer_witness :
    (gerar_pdfs_todos_clientes latin1Alnum "relatorios" exDfJose =
      some ((uniqueStr ((exDfJose.rows.map (fun r => r.getD 0 none)).filterMap
          cellText?)).map
        (fun s =>
          { filename := "relatorios" ++ "/" ++ nome_arquivo latin1Alnum s ++ ".pdf"
            titulo := "Relatório - " ++ s
            header := exDfJose.cols
            body := (exDfJose.rows.filter
                (fun r => r.getD 0 none == some (Val.str s))).map
              (fun r => r.map cellDisp) })) ∧
    (uniqueStr ((exDfJose.rows.map (fun r => r.getD 0 none)).filterMap
      cellText?)).Nodup ∧
    (∀ v, v ∈ uniqueStr ((exDfJose.rows.map (fun r => r.getD 0 none)).filterMap
        cellText?) ↔
      v ∈ (exDfJose.rows.map (fun r => r.getD 0 none)).filterMap cellText?) ∧
    (uniqueStr ((exDfJose.rows.map (fun r => r.getD 0 none)).filterMap
      cellText?)).Sublist
      ((exDfJose.rows.map (fun r => r.getD 0 none)).filterMap cellText?)) ∧
    nome_arquivo latin1Alnum "José" = "José" := by
  refine ⟨C7_render_per_customer latin1Alnum "relatorios" exDfJose 0 (by rfl)
    (by
      intro c hc
      simp only [exDfJose, List.map_cons, List.map_nil, List.mem_cons,
        List.not_mem_nil, or_false] at hc
      rcases hc with rfl | rfl | rfl
      · exact ⟨"José", rfl⟩
      · exact ⟨"B", rfl⟩
      · exact ⟨"José", rfl⟩), ?_⟩
  rfl

theorem dropWhile_head_false {p : Char → Bool} :
    ∀ {l : List Char} {a : Char} {t : List Char},
      l.dropWhile p = a :: t → p a = false := by
  intro l
  induction l with
  | nil => intro a t h; simp [List.dropWhile] at h
  | cons b l ih =>
    intro a t h
    rw [List.dropWhile_cons] at h
    by_cases hb : p b
    · rw [if_pos hb] at h
      exact ih h
    · rw [if_neg hb] at h
      cases h
      rw [← Bool.not_eq_true]
      exact hb

theorem dropWhile_eq_self_of_head {p : Char → Bool} {a : Char} {t : List Char}
    (h : p a = false) : (a :: t).dropWhile p = a :: t := by
  rw [List.dropWhile_cons, if_neg (by rw [h]; exact Bool.noConfusion)]

theorem dropWhile_suffix_exists (p : Char → Bool) :
    ∀ l : List Char, ∃ t, l = t ++ l.dropWhile p := by
  intro l
  induction l with
  | nil => exact ⟨[], rfl⟩
  | cons a l ih =>
    by_cases ha : p a
    · obtain ⟨t, ht⟩ := ih
      refine ⟨a :: t, ?_⟩
      rw [List.dropWhile_cons, if_pos ha, List.cons_append, ← ht]
    · exact ⟨[], by rw [List.dropWhile_cons, if_neg ha]; rfl⟩

theorem dropWhile_both_idem (p : Char → Bool) (l : List Char) :
    ((((((l.dropWhile p).reverse.dropWhile p).reverse).dropWhile p).reverse).dropWhile p).reverse =
      ((l.dropWhile p).reverse.dropWhile p).reverse := by
  cases hB : (l.dropWhile p).reverse.dropWhile p with
  | nil => rfl
  | cons b bt =>
    have hpb : p b = false := dropWhile_head_false hB
    cases hA : l.dropWhile p with
    | nil => rw [hA] at hB; simp at hB
    | cons a at2 =>
      have hpa : p a = false := dropWhile_head_false hA
      obtain ⟨t, ht⟩ := dropWhile_suffix_exists p (l.dropWhile p).reverse
      rw [hB] at ht
      have hA2 : l.dropWhile p = (b :: bt).reverse ++ t.reverse := by
        have hrev := congrArg List.reverse ht
        rw [List.reverse_reverse, List.reverse_append] at hrev
        exact hrev
      cases hBR : (b :: bt).reverse with
      | nil =>
        have : (b :: bt).reverse.length = 0 := by rw [hBR]; rfl
        simp at this
      | cons x xs =>
        have hx : x = a := by
          rw [hA, hBR, List.cons_append] at hA2
          injection hA2 with h1 _
          exact h1.symm
        have hpx : p x = false := hx ▸ hpa
        rw [dropWhile_eq_self_of_head hpx, ← hBR, List.reverse_reverse,
          dropWhile_eq_self_of_head hpb]

theorem stripChars_idem (l : List Char) :
    stripChars (stripChars l) = stripChars l :=
  dropWhile_both_idem Char.isWhitespace l

theorem pyStrip_idem (s : String) : pyStrip (pyStrip s) = pyStrip s := by
  unfold pyStrip
  rw [show (String.mk (stripChars s.data)).data = stripChars s.data from rfl,
    stripChars_idem]

theorem charListLe_iff :
    ∀ (l1 l2 : List Char), charListLe l1 l2 = true ↔ ¬ List.lt l2 l1 := by
  intro l1
  induction l1 with
  | nil =>
    intro l2
    constructor
    · intro _ h
      cases h
    · intro _
      rfl
  | cons a as ih =>
    intro l2
    cases l2 with
    | nil =>
      simp only [charListLe]
      exact ⟨fun h => Bool.noConfusion h,
        fun h => absurd (List.lt.nil a as) h⟩
    | cons b bs =>
      simp only [charListLe]
      by_cases hab : a = b
      · subst hab
        rw [if_pos rfl, ih bs]
        constructor
        · intro h hlt
          cases hlt with
          | head _ _ hba => exact absurd hba (lt_irrefl a)
          | tail _ _ htl => exact h htl
        · intro h hlt
          exact h (List.lt.tail (lt_irrefl a) (lt_irrefl a) hlt)
      · rw [if_neg hab]
        constructor
        · intro h hlt
          have hab2 : a < b := of_decide_eq_true h
          cases hlt with
          | head _ _ hba => exact absurd (lt_trans hba hab2) (lt_irrefl b)
          | tail hba hab3 _ => exact absurd hab2 hab3
        · intro h
          apply decide_eq_true
          rcases lt_trichotomy a b with hlt | heq | hgt
          · exact hlt
          · exact absurd heq hab
          · exact absurd (List.lt.head _ _ hgt) h

theorem pyLe_iff_le {a b : String} : pyLe a b = true ↔ a ≤ b := by
  refine (charListLe_iff a.data b.data).trans ?_
  have h1 : (b < a) ↔ List.Lex (fun x y => x < y) b.data a.data :=
    String.lt_iff_toList_lt
  rw [List.lt_iff_lex_lt, ← h1]
  exact not_lt

/-- Counterexample to C8: after loading `exRawDup`, whose `Cliente` column
holds the raw values `" a"` and `"a "`, `DistinctValues` on `Cliente`
returns `["a", "a"]` — `unique()` deduplicates before stripping, so the
result is not duplicate-free. -/
theorem C8_counterexample :
    get_valores_unicos (processar_arquivo exRawDup).df "Cliente" = ["a", "a"] ∧
    ¬ (get_valores_unicos (processar_arquivo exRawDup).df "Cliente").Nodup := by
  have h : get_valores_unicos (processar_arquivo exRawDup).df "Cliente" =
      ["a", "a"] := by decide
  refine ⟨h, ?_⟩
  rw [h]
  decide

/-- C8 amended: `DistinctValues` always returns a lexicographically sorted
sequence of non-blank, trimmed values, and returns the empty sequence for a
null table or an unknown field, never raising an error; but the values are
deduplicated as raw cell values before stripping, so the output can contain
duplicates when distinct raw values share the same trimmed form. -/
theorem C8_distinct_values_amended (df? : Option DF) (coluna : String) :
    List.Sorted (fun a b : String => a ≤ b) (get_valores_unicos df? coluna) ∧
    (∀ s ∈ get_valores_unicos df? coluna, s ≠ "" ∧ pyStrip s = s) ∧
    (df? = none → get_valores_unicos df? coluna = []) ∧
    (∀ df, df? = some df → idxOf? coluna df.cols = none →
      get_valores_unicos df? coluna = []) := by
  cases df? with
  | none =>
    refine ⟨by simp [get_valores_unicos], by simp [get_valores_unicos],
      fun _ => rfl, fun df h => Option.noConfusion h⟩
  | some df =>
    cases hj : idxOf? coluna df.cols with
    | none =>
      refine ⟨by simp [get_valores_unicos, hj], by simp [get_valores_unicos, hj],
        (by intro h; cases h), ?_⟩
      intro df2 h _
      simp [get_valores_unicos, hj]
    | some j =>
      have hres : get_valores_unicos (some df) coluna =
          List.insertionSort (fun a b => pyLe a b = true)
            ((uniqueCells (df.rows.map (fun r => r.getD j none))).filterMap
              (fun c =>
                match c with
                | none => none
                | some v =>
                  let s := pyStrip (pyStr v)
                  if s = "" then none else some s)) := by
        simp only [get_valores_unicos, hj]
      refine ⟨?_, ?_, (by intro h; cases h), ?_⟩
      · rw [hres]
        haveI ht1 : IsTotal String (fun a b => pyLe a b = true) :=
          ⟨fun a b => by rw [pyLe_iff_le, pyLe_iff_le]; exact le_total a b⟩
        haveI ht2 : IsTrans String (fun a b => pyLe a b = true) :=
          ⟨fun a b c hab hbc => by
            rw [pyLe_iff_le] at hab hbc ⊢
            exact le_trans hab hbc⟩
        exact (List.sorted_insertionSort _ _).imp (fun h => pyLe_iff_le.mp h)
      · intro s hs
        rw [hres] at hs
        have hmem :=
          (List.perm_insertionSort (fun a b : String => pyLe a b = true) _).mem_iff.mp hs
        rw [List.mem_filterMap] at hmem
        obtain ⟨c, _, hcs⟩ := hmem
        cases c with
        | none => simp at hcs
        | some v =>
          by_cases hE : pyStrip (pyStr v) = ""
          · simp only [hE] at hcs
            simp at hcs
          · simp only [] at hcs
            rw [if_neg hE] at hcs
            cases hcs
            exact ⟨hE, pyStrip_idem _⟩
      · intro df2 hdf hj2
        cases hdf
        rw [hj] at hj2
        exact Option.noConfusion hj2

/-- Witness for C8 amended at concrete inputs. -/
theorem C8_distinct_values_amended_witness :
    List.Sorted (fun a b : String => a ≤ b)
      (get_valores_unicos (some exDfRender) "Cliente") ∧
    (∀ s ∈ get_valores_unicos (some exDfRender) "Cliente",
      s ≠ "" ∧ pyStrip s = s) ∧
    get_valores_unicos none "Cliente" = [] :=
  ⟨(C8_distinct_values_amended (some exDfRender) "Cliente").1,
   (C8_distinct_values_amended (some exDfRender) "Cliente").2.1,
   (C8_distinct_values_amended none "Cliente").2.2.1 rfl⟩

theorem idxOf?_quant_esperadas : idxOf? "Quantidade" colunasEsperadas = some 7 := by
  decide

theorem zip_set_idem (j : Nat) :
    ∀ (rows : List (List Cell)) (vals : List Cell), rows.length = vals.length →
      ((((rows.zip vals).map (fun p => p.fst.set j p.snd)).zip vals).map
        (fun p => p.fst.set j p.snd)) =
      (rows.zip vals).map (fun p => p.fst.set j p.snd) := by
  intro rows
  induction rows with
  | nil => intro vals _; simp
  | cons r rs ih =>
    intro vals h
    cases vals with
    | nil => simp at h
    | cons v vs =>
      simp only [List.zip_cons_cons, List.map_cons, List.set_set]
      rw [ih vs (by simpa using h)]

theorem filtrar_idem_general (rows : List (List Cell))
    (hquant : ∀ r ∈ rows, ∃ k : Int,
      lookupCell colunasEsperadas r "Quantidade" = some (Val.int k))
    (fs : Filtros) (t : DF)
    (hf : filtrar_dados (some ⟨colunasEsperadas, rows⟩) fs = Except.ok t) :
    filtrar_dados (some t) fs = Except.ok t := by
  cases ha : applyFiltros ⟨colunasEsperadas, rows⟩ fs with
  | none =>
    have ht : t = ⟨colunasEsperadas, rows⟩ := by
      simp only [filtrar_dados, ha, Except.ok.injEq] at hf
      exact hf.symm
    rw [ht]
    simp [filtrar_dados, ha]
  | some dff =>
    have ht : t = setQuantidade dff := by
      simp only [filtrar_dados, ha, Except.ok.injEq] at hf
      exact hf.symm
    have hmc : ∀ p ∈ fs, p.snd.isEmpty = false → p.fst ∈ colunasEsperadas :=
      applyFiltros_mem_cols fs _ dff ha
    have heq := applyFiltros_eq_filter fs ⟨colunasEsperadas, rows⟩ hmc
    rw [ha] at heq
    injection heq with heq
    have heq2 : dff = ⟨colunasEsperadas, rows.filter (rowPass colunasEsperadas fs)⟩ :=
      heq
    subst heq2
    by_cases hqf : ∃ p ∈ fs, p.snd.isEmpty = false ∧ p.fst = "Quantidade"
    · have hempty : rows.filter (rowPass colunasEsperadas fs) = [] := by
        rw [List.filter_eq_nil_iff]
        intro r hrmem hpass
        obtain ⟨p, hp, hpe, hpq⟩ := hqf
        rw [rowPass, List.all_eq_true] at hpass
        obtain ⟨k, hk⟩ := hquant r hrmem
        have hthis := hpass p hp
        simp only [hpe, hpq, idxOf?_quant_esperadas, Bool.false_or] at hthis
        rw [lookupCell_eq_getD idxOf?_quant_esperadas] at hk
        rw [hk] at hthis
        simp [cellIsInStrs] at hthis
      rw [hempty] at ht
      have hsq : setQuantidade ⟨colunasEsperadas, []⟩ = ⟨colunasEsperadas, []⟩ := by
        rw [setQuantidade, setCol_eq_some
          (show idxOf? "Quantidade" (DF.mk colunasEsperadas []).cols = some 7 from
            idxOf?_quant_esperadas)]
        rfl
      rw [ht, hsq]
      have hmc2 : ∀ p ∈ fs, p.snd.isEmpty = false →
          p.fst ∈ (DF.mk colunasEsperadas []).cols := hmc
      rw [filtrar_eq_of_cols _ fs hmc2]
      show Except.ok (setQuantidade ⟨colunasEsperadas, []⟩) =
        Except.ok (⟨colunasEsperadas, []⟩ : DF)
      rw [hsq]
    · push_neg at hqf
      have htt : t = ⟨colunasEsperadas,
          ((rows.filter (rowPass colunasEsperadas fs)).zip
            (seqCells (rows.filter (rowPass colunasEsperadas fs)).length)).map
            (fun p => p.fst.set 7 p.snd)⟩ := by
        rw [ht, setQuantidade, setCol_eq_some
          (show idxOf? "Quantidade"
              (DF.mk colunasEsperadas (rows.filter (rowPass colunasEsperadas fs))).cols
            = some 7 from idxOf?_quant_esperadas)]
      have hallpass : ∀ r ∈ ((rows.filter (rowPass colunasEsperadas fs)).zip
          (seqCells (rows.filter (rowPass colunasEsperadas fs)).length)).map
          (fun p => p.fst.set 7 p.snd),
          rowPass colunasEsperadas fs r = true := by
        intro r hrmem
        simp only [List.mem_map] at hrmem
        obtain ⟨q, hq, rfl⟩ := hrmem
        have hq1 : q.fst ∈ rows.filter (rowPass colunasEsperadas fs) :=
          (List.mem_zip hq).1
        have hpass : rowPass colunasEsperadas fs q.fst = true :=
          (List.mem_filter.mp hq1).2
        rw [rowPass, List.all_eq_true] at hpass ⊢
        intro p hp
        have hthis := hpass p hp
        rcases Bool.eq_false_or_eq_true p.snd.isEmpty with hpe | hpe
        · simp [hpe]
        · have hne := hqf p hp hpe
          have hmem := hmc p hp hpe
          obtain ⟨jc, hjc⟩ := exists_idxOf?_of_mem hmem
          simp only [hpe, Bool.false_or, hjc] at hthis ⊢
          have hjcne : jc ≠ 7 := by
            intro e
            apply hne
            rw [← idxOf?_getD "" hjc, e]
            rfl
          rw [getD_set_ne q.fst jc 7 q.snd none hjcne]
          exact hthis
      rw [htt]
      have hmc3 : ∀ p ∈ fs, p.snd.isEmpty = false →
          p.fst ∈ (DF.mk colunasEsperadas
            (((rows.filter (rowPass colunasEsperadas fs)).zip
              (seqCells (rows.filter (rowPass colunasEsperadas fs)).length)).map
              (fun p => p.fst.set 7 p.snd))).cols := hmc
      rw [filtrar_eq_of_cols _ fs hmc3]
      show Except.ok (setQuantidade ⟨colunasEsperadas,
          (((rows.filter (rowPass colunasEsperadas fs)).zip
            (seqCells (rows.filter (rowPass colunasEsperadas fs)).length)).map
            (fun p => p.fst.set 7 p.snd)).filter (rowPass colunasEsperadas fs)⟩) =
        Except.ok (⟨colunasEsperadas,
          ((rows.filter (rowPass colunasEsperadas fs)).zip
            (seqCells (rows.filter (rowPass colunasEsperadas fs)).length)).map
            (fun p => p.fst.set 7 p.snd)⟩ : DF)
      rw [List.filter_eq_self.mpr (fun r hr => hallpass r hr)]
      refine congrArg Except.ok ?_
      rw [setQuantidade, setCol_eq_some
        (show idxOf? "Quantidade"
            (DF.mk colunasEsperadas
              (((rows.filter (rowPass colunasEsperadas fs)).zip
                (seqCells (rows.filter (rowPass colunasEsperadas fs)).length)).map
                (fun p => p.fst.set 7 p.snd))).cols
          = some 7 from idxOf?_quant_esperadas)]
      have hTlen : ((((rows.filter (rowPass colunasEsperadas fs)).zip
          (seqCells (rows.filter (rowPass colunasEsperadas fs)).length)).map
          (fun p => p.fst.set 7 p.snd))).length =
          (rows.filter (rowPass colunasEsperadas fs)).length := by
        rw [List.length_map, List.length_zip, length_seqCells, Nat.min_self]
      show (⟨colunasEsperadas,
        ((((rows.filter (rowPass colunasEsperadas fs)).zip
          (seqCells (rows.filter (rowPass colunasEsperadas fs)).length)).map
          (fun p => p.fst.set 7 p.snd)).zip
          (seqCells ((((rows.filter (rowPass colunasEsperadas fs)).zip
            (seqCells (rows.filter (rowPass colunasEsperadas fs)).length)).map
            (fun p => p.fst.set 7 p.snd))).length)).map
          (fun p => p.fst.set 7 p.snd)⟩ : DF) = _
      rw [hTlen]
      rw [zip_set_idem 7 (rows.filter (rowPass colunasEsperadas fs))
        (seqCells (rows.filter (rowPass colunasEsperadas fs)).length)
        (length_seqCells _).symm]

/-- C9: `Filter` is idempotent for a fixed spec on a loaded Table:
filtering the result of `Filter` again with the same spec returns that
result unchanged (every selected row still satisfies the spec after the
`Quantidade` renumbering, and renumbering an already renumbered table is
the identity). -/
theorem C9_filter_idempotent (raw : List (List Cell)) (t0 t : DF) (fs : Filtros)
    (hdf : (processar_arquivo raw).df = some t0)
    (hf : filtrar_dados (some t0) fs = Except.ok t) :
    filtrar_dados (some t) fs = Except.ok t := by
  obtain ⟨hr, hh, ht, rfl⟩ := load_result hdf
  have hquant : ∀ r ∈ (loadFinal raw hr).rows, ∃ k : Int,
      lookupCell colunasEsperadas r "Quantidade" = some (Val.int k) := by
    intro r hrmem
    have hcell : lookupCell (loadFinal raw hr).cols r "Quantidade" ∈
        getColCells (loadFinal raw hr) "Quantidade" :=
      List.mem_map_of_mem _ hrmem
    rw [loadFinal_quant] at hcell
    simp only [seqCells, List.mem_map, List.mem_range] at hcell
    obtain ⟨i, _, hi⟩ := hcell
    exact ⟨Int.ofNat i + 1, hi.symm ▸ rfl⟩
  exact filtrar_idem_general (loadFinal raw hr).rows
    (fun r hrmem => hquant r hrmem) fs t hf

/-- Witness for C9 at the concrete workbook `exRawMain` with the empty
filter spec. -/
theorem C9_filter_idempotent_witness :
    filtrar_dados (some (setQuantidade (loadFinal exRawMain 1))) [] =
      Except.ok (setQuantidade (loadFinal exRawMain 1)) :=
  C9_filter_idempotent exRawMain (loadFinal exRawMain 1)
    (setQuantidade (loadFinal exRawMain 1)) [] (by rfl) (by rfl)

end Taiwan
